import Mathlib

/-!
Verification of the openedx_authz authorization core.

Strings from the Python source are embedded as `List Char`; each definition
mirrors one function of the repository (`engine/enforcer.py`,
`engine/adapter.py`, `engine/matcher.py`,
`management/commands/load_policy.py`, `rest_api/utils.py`).  Definitions
marked `Modelled from the spec:` embed behaviour whose code (the Casbin
model configuration and evaluation loop) is not part of the source tree.
-/

/-- Splits a character list at every occurrence of `sep`, mirroring
Python's `str.split(sep)` for a one-character separator: the result is
never empty and keeps empty segments. -/
def splitOnChar (sep : Char) : List Char → List (List Char)
  | [] => [[]]
  | c :: rest =>
    if c = sep then [] :: splitOnChar sep rest
    else
      match splitOnChar sep rest with
      | [] => [[c]]
      | s :: ss => (c :: s) :: ss

/-- Embeds `classify` of `engine/enforcer.py`: maps a raw ID to a type by
testing the fixed prefix pairs in source order. -/
def classify (obj : List Char) : Option (List Char) :=
  if "course-".toList.isPrefixOf obj || "course:".toList.isPrefixOf obj then
    some "course".toList
  else if "lib-".toList.isPrefixOf obj || "lib:".toList.isPrefixOf obj then
    some "lib".toList
  else if "report-".toList.isPrefixOf obj || "report:".toList.isPrefixOf obj then
    some "report".toList
  else if "asset-".toList.isPrefixOf obj || "asset:".toList.isPrefixOf obj then
    some "asset".toList
  else
    none

/-- Embeds `type_match` of `engine/enforcer.py`: when the policy object
ends in `":*"` compare `classify(obj)` with the text before the first
colon (`policy_obj.split(":")[0]`); otherwise return false. -/
def type_match (obj policy_obj : List Char) : Bool :=
  if ":*".toList.isSuffixOf policy_obj then
    decide (classify obj = some ((splitOnChar ':' policy_obj).headD []))
  else
    false

/-- The ordered prefix taxonomy the specification describes for the key
classifier, as (prefix, type) pairs. -/
def prefixTaxonomy : List (List Char × List Char) :=
  [("course-".toList, "course".toList), ("course:".toList, "course".toList),
   ("lib-".toList, "lib".toList), ("lib:".toList, "lib".toList),
   ("report-".toList, "report".toList), ("report:".toList, "report".toList),
   ("asset-".toList, "asset".toList), ("asset:".toList, "asset".toList)]

/-- Walks an ordered taxonomy and returns the type of the first prefix
rule matching the object, as the specification words it. -/
def firstTaxonomyMatch (obj : List Char) : List (List Char × List Char) → Option (List Char)
  | [] => none
  | (pre, ty) :: rest => if pre.isPrefixOf obj then some ty else firstTaxonomyMatch obj rest

/-- The classifier as the specification words it: the type attached to the
first prefix rule of the ordered taxonomy that matches, else `none`. -/
def classifySpec (obj : List Char) : Option (List Char) :=
  firstTaxonomyMatch obj prefixTaxonomy

/-- The effect carried by a policy rule, `allow` or `deny`. -/
inductive Effect where
  | allow : Effect
  | deny : Effect
deriving DecidableEq, Repr

/-- Modelled from the spec: a policy rule is a quadruple of a subject
pattern, an action pattern, a scope pattern and an effect (section 3 of
the design; the concrete rule tuples appear as `p` lines of the policy
file and of `tests/test_enforcement.py`). -/
structure PolicyRule where
  subjectPattern : List Char
  actionPattern : List Char
  scopePattern : List Char
  effect : Effect
deriving DecidableEq, Repr

/-- Modelled from the spec: a role grant states that a subject holds a
role within a scope, `"*"` meaning globally (`g` tuples). -/
structure RoleGrant where
  subject : List Char
  role : List Char
  scope : List Char
deriving DecidableEq, Repr

/-- Modelled from the spec: the immutable snapshot the enforcer queries,
holding the policy set, the role grants and the two hierarchy relations. -/
structure Snapshot where
  rules : List PolicyRule
  grants : List RoleGrant
  actionEdges : List (List Char × List Char)
  containment : List (List Char × List Char)
deriving Repr

/-- Modelled from the spec: directed reachability over an edge list with a
visited-set guard; the fuel argument bounds the recursion and is chosen
larger than the number of edges at every call site. -/
def reachAux (edges : List (List Char × List Char)) :
    Nat → List (List Char) → List Char → List Char → Bool
  | 0, _, _, _ => false
  | Nat.succ fuel, visited, current, target =>
    if current = target then true
    else if visited.contains current then false
    else (edges.filter (fun e => decide (e.1 = current))).any fun e =>
      reachAux edges fuel (current :: visited) e.2 target

/-- Modelled from the spec: role-graph search restricted to grants whose
scope is `"*"` or the request scope, with a visited-set guard. -/
def hasRoleAux (grants : List RoleGrant) (scope : List Char) :
    Nat → List (List Char) → List Char → List Char → Bool
  | 0, _, _, _ => false
  | Nat.succ fuel, visited, current, target =>
    if current = target then true
    else if visited.contains current then false
    else (grants.filter (fun g =>
        decide (g.subject = current) &&
        (decide (g.scope = "*".toList) || decide (g.scope = scope)))).any fun g =>
      hasRoleAux grants scope fuel (current :: visited) g.role target

/-- Modelled from the spec: `hasRole(subject, role, scope)` of section 4.2. -/
def hasRole (grants : List RoleGrant) (subject role scope : List Char) : Bool :=
  hasRoleAux grants scope (grants.length + 1) [] subject role

/-- Modelled from the spec: `actionReaches(granted, requested)` of
section 4.3, reflexive-transitive reachability over implication edges. -/
def actionReaches (edges : List (List Char × List Char)) (granted requested : List Char) : Bool :=
  reachAux edges (edges.length + 1) [] granted requested

/-- Modelled from the spec: `scopeReaches(pattern, object)` of section
4.4 as the union of literal equality, the universal wildcard, the
type-wide wildcard (`type_match` of the source) and containment closure. -/
def scopeReaches (snap : Snapshot) (pat obj : List Char) : Bool :=
  decide (pat = obj) || decide (pat = "*".toList) || type_match obj pat ||
    reachAux snap.containment (snap.containment.length + 1) [] obj pat

/-- Modelled from the spec: a rule is a candidate for a request when its
subject pattern is `"*"`, the subject itself, or a role the subject holds
for the requested object, and its action and scope patterns reach the
requested action and object (section 4.5, step 2). -/
def isCandidate (snap : Snapshot) (r : PolicyRule) (sub act obj : List Char) : Bool :=
  (decide (r.subjectPattern = "*".toList) || decide (r.subjectPattern = sub) ||
      hasRole snap.grants sub r.subjectPattern obj) &&
    actionReaches snap.actionEdges r.actionPattern act &&
    scopeReaches snap r.scopePattern obj

/-- Modelled from the spec: `enforce(subject, action, object)` of section
4.5 — deny when some candidate rule denies, else allow when some
candidate rule allows, else default-deny.  The Casbin model configuration
realising this is not part of the source tree. -/
def enforce (snap : Snapshot) (sub act obj : List Char) : Bool :=
  let candidates := snap.rules.filter (fun r => isCandidate snap r sub act obj)
  if candidates.any (fun r => decide (r.effect = Effect.deny)) then false
  else candidates.any (fun r => decide (r.effect = Effect.allow))

/-- Modelled from the spec: a durable policy tuple
`(kind, v0, v1, v2, v3, v4, v5)` as exchanged with the Policy Store
(section 6); unused positional fields are empty. -/
structure StoredTuple where
  kind : List Char
  v0 : List Char
  v1 : List Char
  v2 : List Char
  v3 : List Char
  v4 : List Char
  v5 : List Char
deriving DecidableEq, Repr

/-- Parses the textual effect field of a stored rule tuple. -/
def toEffect (s : List Char) : Option Effect :=
  if s = "allow".toList then some Effect.allow
  else if s = "deny".toList then some Effect.deny
  else none

/-- Modelled from the spec: `load()` rebuilds the snapshot from the Store
contents alone — read all tuples, partition by record kind, rebuild the
structures (section 4.6); malformed tuples are skipped. -/
def buildSnapshot (store : List StoredTuple) : Snapshot where
  rules := store.filterMap fun t =>
    if t.kind = "p".toList then
      (toEffect t.v3).map fun e => PolicyRule.mk t.v0 t.v1 t.v2 e
    else none
  grants := store.filterMap fun t =>
    if t.kind = "g".toList then some (RoleGrant.mk t.v0 t.v1 t.v2) else none
  actionEdges := store.filterMap fun t =>
    if t.kind = "g2".toList then some (t.v0, t.v1) else none
  containment := store.filterMap fun t =>
    if t.kind = "g2".toList then some (t.v0, t.v1) else none

/-- The enforcer's process-wide state: the currently published snapshot. -/
structure EnforcerState where
  snapshot : Snapshot

/-- Modelled from the spec: a `load()` call replaces the published
snapshot wholesale with the one rebuilt from the Store, never patching
the previous snapshot in place (sections 3 and 4.6). -/
def loadStore (store : List StoredTuple) (_previous : EnforcerState) : EnforcerState :=
  { snapshot := buildSnapshot store }

/-- Embeds a row of the `casbin_rule` database table used by
`engine/adapter.py`: the auto-increment primary key `id` records the
insertion sequence, the remaining columns are uninterpreted strings. -/
structure CasbinRule where
  id : Nat
  ptype : String
  v0 : String
  v1 : String
  v2 : String
  v3 : String
  v4 : String
  v5 : String
deriving DecidableEq, Repr

/-- Embeds the filter object consumed by
`ExtendedAdapter.filter_query`: one list of acceptable values per
column, an empty list meaning no constraint on that column. -/
structure PolicyFilter where
  ptype : List String
  v0 : List String
  v1 : List String
  v2 : List String
  v3 : List String
  v4 : List String
  v5 : List String

/-- The column accessors `("ptype", "v0", ..., "v5")` that
`filter_query` iterates over, paired with the matching filter field. -/
def adapterColumns : List ((CasbinRule → String) × (PolicyFilter → List String)) :=
  [(CasbinRule.ptype, PolicyFilter.ptype), (CasbinRule.v0, PolicyFilter.v0),
   (CasbinRule.v1, PolicyFilter.v1), (CasbinRule.v2, PolicyFilter.v2),
   (CasbinRule.v3, PolicyFilter.v3), (CasbinRule.v4, PolicyFilter.v4),
   (CasbinRule.v5, PolicyFilter.v5)]

/-- Inserts a row into a list sorted by ascending `id`, keeping it sorted. -/
def insertById (r : CasbinRule) : List CasbinRule → List CasbinRule
  | [] => [r]
  | x :: xs => if r.id ≤ x.id then r :: x :: xs else x :: insertById r xs

/-- Sorts rows by ascending `id`, embedding the final
`queryset.order_by("id")` of `filter_query`. -/
def orderById (l : List CasbinRule) : List CasbinRule :=
  l.foldr insertById []

/-- Embeds `ExtendedAdapter.filter_query` of `engine/adapter.py`: for
each column whose filter holds at least one value, restrict the rows to
those whose column value is among them; finally order by `id`. -/
def filter_query (rows : List CasbinRule) (f : PolicyFilter) : List CasbinRule :=
  orderById (adapterColumns.foldl
    (fun qs col =>
      if 0 < (col.2 f).length then qs.filter (fun r => (col.2 f).contains (col.1 r)) else qs)
    rows)

/-- The row predicate as the specification words it: in every column
carrying a non-empty filter set, the row's value belongs to that set. -/
def MatchesFilter (f : PolicyFilter) (r : CasbinRule) : Prop :=
  (f.ptype ≠ [] → r.ptype ∈ f.ptype) ∧ (f.v0 ≠ [] → r.v0 ∈ f.v0) ∧
    (f.v1 ≠ [] → r.v1 ∈ f.v1) ∧ (f.v2 ≠ [] → r.v2 ∈ f.v2) ∧
    (f.v3 ≠ [] → r.v3 ∈ f.v3) ∧ (f.v4 ≠ [] → r.v4 ∈ f.v4) ∧
    (f.v5 ≠ [] → r.v5 ∈ f.v5)

instance (f : PolicyFilter) (r : CasbinRule) : Decidable (MatchesFilter f r) := by
  unfold MatchesFilter
  infer_instance

/-- Strips leading and trailing whitespace, embedding Python's
`str.strip()`. -/
def trimChars (l : List Char) : List Char :=
  ((l.dropWhile Char.isWhitespace).reverse.dropWhile Char.isWhitespace).reverse

/-- Embeds one iteration of the parsing loop of
`Command._parse_policy_file` in `management/commands/load_policy.py`:
strip the line, skip blank and comment lines, split on commas and strip
the parts, reject fewer than two parts or an unknown policy type, and
otherwise keep the parts. -/
def parseLine (line : List Char) : Option (List (List Char)) :=
  let s := trimChars line
  if s.isEmpty then none
  else if "#".toList.isPrefixOf s then none
  else
    let parts := (splitOnChar ',' s).map trimChars
    if parts.length < 2 then none
    else if parts.headD [] = "p".toList ∨ parts.headD [] = "g".toList ∨
        parts.headD [] = "g2".toList then some parts
    else none

/-- Embeds `Command._parse_policy_file`: parse every line, keeping the
accepted ones in file order. -/
def parse_policy_file (lines : List (List Char)) : List (List (List Char)) :=
  lines.filterMap parseLine

/-- Embeds the per-kind arity checks of
`Command._load_policies_to_database`: `p` records need at least four
parameters, `g` and `g2` records at least two. -/
def keptByLoader (ps : List (List Char)) : Bool :=
  match ps with
  | [] => false
  | ptype :: params =>
    if ptype = "p".toList then decide (4 ≤ params.length)
    else if ptype = "g".toList then decide (2 ≤ params.length)
    else if ptype = "g2".toList then decide (2 ≤ params.length)
    else false

/-- Embeds `Command._load_policies_to_database` restricted to which
parsed records are loaded: the records passing the per-kind arity check,
in order. -/
def load_policies_to_database (policies : List (List (List Char))) : List (List (List Char)) :=
  policies.filter keptByLoader

/-- The well-formed lines as the specification words them: after
stripping, a line that is non-blank, no comment, and carries a known
kind with the field count that kind requires; the value is its stripped
fields. -/
def specWellFormedLine (line : List Char) : Option (List (List Char)) :=
  let s := trimChars line
  if s.isEmpty ∨ s.headD ' ' = '#' then none
  else
    match (splitOnChar ',' s).map trimChars with
    | [] => none
    | kind :: rest =>
      if kind = "p".toList ∧ 4 ≤ rest.length then some (kind :: rest)
      else if (kind = "g".toList ∨ kind = "g2".toList) ∧ 2 ≤ rest.length then some (kind :: rest)
      else none

/-- The account record `check_custom_conditions` consults, reduced to
the flags the matcher reads. -/
structure AuthUser where
  is_staff : Bool
  is_superuser : Bool
  course_creator_granted : Bool
deriving DecidableEq, Repr

/-- The resolved scope object, reduced to the flag the matcher reads. -/
structure ScopeObj where
  allow_public_read : Bool
deriving DecidableEq, Repr

/-- The collaborators of `engine/matcher.py` that live outside the
source tree (`openedx_authz.api.data`, the Django user model and
settings): user resolution — `none` models `User.DoesNotExist`,
including retired users —, scope-object resolution, key parsing, the
content-library test and the service variant. -/
structure MatcherEnv where
  resolveUser : List Char → Option AuthUser
  getObject : List Char → Option ScopeObj
  userExternalKey : List Char → List Char
  actionExternalKey : List Char → List Char
  isContentLibraryScope : List Char → Bool
  serviceVariant : List Char

/-- Embeds `is_studio_request` of `engine/matcher.py`. -/
def is_studio_request (env : MatcherEnv) : Bool :=
  env.serviceVariant = "cms".toList

/-- Embeds `is_course_creator` of `engine/matcher.py`: whether the
course-creator status of the user is granted. -/
def is_course_creator (user : AuthUser) : Bool :=
  user.course_creator_granted

/-- Embeds `check_custom_conditions` of `engine/matcher.py`: fail when
the user does not resolve or the scope has no object; pass staff and
superusers unconditionally; otherwise apply the studio-only
content-library conditions for `create_library` and `view_library`. -/
def check_custom_conditions (env : MatcherEnv)
    (request_user request_action request_scope : List Char) : Bool :=
  match env.resolveUser (env.userExternalKey request_user) with
  | none => false
  | some user =>
    match env.getObject request_scope with
    | none => false
    | some scope_obj =>
      if user.is_staff || user.is_superuser then true
      else if env.isContentLibraryScope request_scope && is_studio_request env then
        if env.actionExternalKey request_action = "create_library".toList then
          is_course_creator user
        else if env.actionExternalKey request_action = "view_library".toList then
          scope_obj.allow_public_read && is_course_creator user
        else false
      else false

/-- A user dictionary as filtered by `rest_api/utils.py`: field values
by field name (`none` models a missing or `None` entry) and the list of
role names. -/
structure ApiUser where
  fields : String → Option (List Char)
  roles : List String

/-- Lowercases every character, embedding Python's `str.lower()`. -/
def lowerChars (l : List Char) : List Char :=
  l.map Char.toLower

/-- Substring containment, embedding Python's `needle in haystack`. -/
def isSubstr : List Char → List Char → Bool
  | needle, [] => needle.isEmpty
  | needle, c :: rest => needle.isPrefixOf (c :: rest) || isSubstr needle rest

/-- Embeds the search condition of `filter_users`: some searched field,
lowercased, contains the raw search term. -/
def matchesSearch (searchFields : List String) (s : List Char) (u : ApiUser) : Bool :=
  searchFields.any fun f => isSubstr s (lowerChars ((u.fields f).getD []))

/-- Embeds `filter_users` of `rest_api/utils.py`: with neither a search
term nor roles, return the users unchanged; otherwise keep the users
passing the search condition (when a non-empty search term is given)
and holding one of the given roles (when roles are given).  `search`
models the optional search string, `roles = []` models an absent or
empty role list, and `searchFields` stands for `SearchField.values()`
of `rest_api/data.py`, which is outside the source tree. -/
def filter_users (searchFields : List String) (users : List ApiUser)
    (search : Option (List Char)) (roles : List String) : List ApiUser :=
  if (search.getD []).isEmpty && roles.isEmpty then users
  else users.filter fun u =>
    (if (search.getD []).isEmpty then true else matchesSearch searchFields (search.getD []) u) &&
    (if roles.isEmpty then true else roles.any fun r => u.roles.contains r)

theorem isPrefixOf_append_self (l t : List Char) : l.isPrefixOf (l ++ t) = true := by
  induction l with
  | nil => simp [List.isPrefixOf]
  | cons c cs ih => simp [List.isPrefixOf, ih]

theorem isSuffixOf_append_self (t l : List Char) : l.isSuffixOf (t ++ l) = true := by
  rw [List.isSuffixOf, List.reverse_append]
  exact isPrefixOf_append_self l.reverse t.reverse

theorem splitOnChar_headD (sep : Char) (l : List Char) :
    (splitOnChar sep l).headD [] = l.takeWhile fun c => decide (c ≠ sep) := by
  induction l with
  | nil => rfl
  | cons c rest ih =>
    by_cases hc : c = sep
    · subst hc
      simp [splitOnChar, List.takeWhile_cons]
    · rw [List.takeWhile_cons]
      rw [if_pos (by simpa using hc)]
      rw [← ih]
      simp only [splitOnChar, if_neg hc]
      cases h : splitOnChar sep rest with
      | nil => simp [h]
      | cons s ss => simp [h]

theorem takeWhile_append_of_not_mem (t : List Char) (r : List Char) (sep : Char)
    (h : sep ∉ t) :
    (t ++ sep :: r).takeWhile (fun c => decide (c ≠ sep)) = t := by
  induction t with
  | nil => simp [List.takeWhile_cons]
  | cons a as ih =>
    simp only [List.mem_cons, not_or] at h
    rw [List.cons_append, List.takeWhile_cons, if_pos (by simpa using (Ne.symm h.1)), ih h.2]

/-- C3: `classify` returns the first matching type of the fixed ordered
prefix taxonomy (`course-`/`course:` → course, `lib-`/`lib:` → lib,
`report-`/`report:` → report, `asset-`/`asset:` → asset) and `none` when
no prefix matches; concretely, `classify "course-v1:Org+Course+Run"` is
`course` and `classify "random-id-without-prefix"` is `none`. -/
theorem classify_first_taxonomy_match :
    (∀ obj : List Char, classify obj = classifySpec obj) ∧
    classify "course-v1:Org+Course+Run".toList = some "course".toList ∧
    classify "random-id-without-prefix".toList = none := by
  refine ⟨fun obj => ?_, by decide, by decide⟩
  cases h1 : "course-".toList.isPrefixOf obj <;>
  cases h2 : "course:".toList.isPrefixOf obj <;>
  cases h3 : "lib-".toList.isPrefixOf obj <;>
  cases h4 : "lib:".toList.isPrefixOf obj <;>
  cases h5 : "report-".toList.isPrefixOf obj <;>
  cases h6 : "report:".toList.isPrefixOf obj <;>
  cases h7 : "asset-".toList.isPrefixOf obj <;>
  cases h8 : "asset:".toList.isPrefixOf obj <;>
  simp only [classify, classifySpec, prefixTaxonomy, firstTaxonomyMatch,
    h1, h2, h3, h4, h5, h6, h7, h8, Bool.false_or, Bool.true_or, Bool.or_self,
    if_true, if_false, Bool.false_eq_true, ite_false, ite_true]

/-- C2 (counterexample): at object `"lib-1"` and pattern `"lib:x:*"`,
`type_match` returns true although the pattern does not have the form
`"<type>:*"` for any type equal to the object's classification: no `t`
satisfies both `"lib:x:*" = t ++ ":*"` and `classify "lib-1" = some t`. -/
theorem type_match_form_counterexample :
    type_match "lib-1".toList "lib:x:*".toList = true ∧
    ¬ ∃ t : List Char, "lib:x:*".toList = t ++ ":*".toList ∧
        classify "lib-1".toList = some t := by
  refine ⟨by decide, ?_⟩
  rintro ⟨t, hp, hc⟩
  have hcl : classify "lib-1".toList = some "lib".toList := by decide
  rw [hcl] at hc
  have ht : t = "lib".toList := (Option.some.inj hc).symm
  subst ht
  exact absurd hp (by decide)

/-- C2 (amended): `type_match obj p` is true iff `p` ends in `":*"` and
`classify obj` equals the segment of `p` before its first colon; every
pattern not ending in `":*"` (a literal key, the universal wildcard
`"*"`) yields false, and `"lib:*"` type-matches exactly the objects
classified as lib. -/
theorem type_match_amended :
    (∀ obj p : List Char, type_match obj p = true ↔
      ":*".toList.isSuffixOf p = true ∧
        classify obj = some (p.takeWhile fun c => decide (c ≠ ':'))) ∧
    (∀ obj p : List Char, ":*".toList.isSuffixOf p = false → type_match obj p = false) ∧
    (∀ obj : List Char, type_match obj "lib:*".toList = true ↔
      classify obj = some "lib".toList) := by
  have hmain : ∀ obj p : List Char, type_match obj p = true ↔
      ":*".toList.isSuffixOf p = true ∧
        classify obj = some (p.takeWhile fun c => decide (c ≠ ':')) := by
    intro obj p
    rw [type_match, splitOnChar_headD]
    cases hs : ":*".toList.isSuffixOf p with
    | false => simp
    | true => simp
  refine ⟨hmain, fun obj p hs => ?_, fun obj => ?_⟩
  · rw [type_match, hs]
    simp
  · rw [hmain obj "lib:*".toList]
    have hsuf : ":*".toList.isSuffixOf "lib:*".toList = true := by decide
    have htake : ("lib:*".toList.takeWhile fun c => decide (c ≠ ':')) = "lib".toList := by decide
    rw [hsuf, htake]
    simp

/-- C2 (witness for the amended theorem): the universal wildcard pattern
`"*"` does not end in `":*"` and `type_match` rejects it. -/
theorem type_match_amended_witness :
    type_match "lib-1".toList "*".toList = false :=
  type_match_amended.2.1 "lib-1".toList "*".toList (by decide)

/-- C7: for every object whose classification is `none`, every type-wide
wildcard pattern `"<type>:*"` fails to match: `type_match` returns false
rather than raising. -/
theorem type_match_unclassified_false (obj t : List Char)
    (h : classify obj = none) : type_match obj (t ++ ":*".toList) = false := by
  simp [type_match, isSuffixOf_append_self, h]

/-- C7 (witness): `"random-id-without-prefix"` classifies to `none` and the
pattern `"lib:*"` does not type-match it. -/
theorem type_match_unclassified_false_witness :
    classify "random-id-without-prefix".toList = none ∧
    type_match "random-id-without-prefix".toList ("lib".toList ++ ":*".toList) = false :=
  ⟨by decide, type_match_unclassified_false "random-id-without-prefix".toList "lib".toList (by decide)⟩

/-- C9: `classify` only ever returns course, lib, report or asset (or
`none`), so a type-wide wildcard pattern `"<type>:*"` whose colon-free
type lies outside that set — such as `"org:*"` or `"user:*"` — never
type-matches any object. -/
theorem classify_range_and_foreign_type_wildcard :
    (∀ obj : List Char, classify obj = none ∨ classify obj = some "course".toList ∨
      classify obj = some "lib".toList ∨ classify obj = some "report".toList ∨
      classify obj = some "asset".toList) ∧
    (∀ obj t : List Char, ':' ∉ t → t ≠ "course".toList → t ≠ "lib".toList →
      t ≠ "report".toList → t ≠ "asset".toList →
      type_match obj (t ++ ":*".toList) = false) := by
  have hrange : ∀ obj : List Char, classify obj = none ∨ classify obj = some "course".toList ∨
      classify obj = some "lib".toList ∨ classify obj = some "report".toList ∨
      classify obj = some "asset".toList := by
    intro obj
    unfold classify
    split_ifs <;> simp
  refine ⟨hrange, fun obj t h1 h2 h3 h4 h5 => ?_⟩
  rw [type_match, isSuffixOf_append_self, if_pos rfl, splitOnChar_headD]
  have htw : ((t ++ ":*".toList).takeWhile fun c => decide (c ≠ ':')) = t := by
    rw [show ":*".toList = ':' :: ['*'] by decide]
    exact takeWhile_append_of_not_mem t ['*'] ':' h1
  rw [htw]
  rcases hrange obj with h | h | h | h | h
  · simp [h]
  · simp only [h, decide_eq_false_iff_not]
    exact fun hEq => h2 (Option.some.inj hEq).symm
  · simp only [h, decide_eq_false_iff_not]
    exact fun hEq => h3 (Option.some.inj hEq).symm
  · simp only [h, decide_eq_false_iff_not]
    exact fun hEq => h4 (Option.some.inj hEq).symm
  · simp only [h, decide_eq_false_iff_not]
    exact fun hEq => h5 (Option.some.inj hEq).symm

/-- C9 (witness): `"org:*"` never type-matches, shown at the object
`"course-1"`, which classifies as course. -/
theorem classify_range_and_foreign_type_wildcard_witness :
    type_match "course-1".toList ("org".toList ++ ":*".toList) = false :=
  classify_range_and_foreign_type_wildcard.2 "course-1".toList "org".toList
    (by decide) (by decide) (by decide) (by decide) (by decide)

theorem any_congr_perm {α : Type} (p : α → Bool) {l1 l2 : List α} (h : l1.Perm l2) :
    l1.any p = l2.any p := by
  rw [Bool.eq_iff_iff, List.any_eq_true, List.any_eq_true]
  constructor
  · rintro ⟨x, hx, hpx⟩
    exact ⟨x, h.mem_iff.mp hx, hpx⟩
  · rintro ⟨x, hx, hpx⟩
    exact ⟨x, h.mem_iff.mpr hx, hpx⟩

/-- C1: deny override — whenever some candidate rule for a request has
effect deny, `enforce` answers false, however many candidate allow rules
exist; and `enforce` is invariant under permuting the rule list, so the
insertion order of rules is irrelevant. -/
theorem enforce_deny_override (snap : Snapshot) (sub act obj : List Char) :
    (∀ r : PolicyRule, r ∈ snap.rules → isCandidate snap r sub act obj = true →
      r.effect = Effect.deny → enforce snap sub act obj = false) ∧
    (∀ rules' : List PolicyRule, snap.rules.Perm rules' →
      enforce { snap with rules := rules' } sub act obj = enforce snap sub act obj) := by
  constructor
  · intro r hmem hcand heff
    have hdeny : (snap.rules.filter (fun r => isCandidate snap r sub act obj)).any
        (fun r => decide (r.effect = Effect.deny)) = true := by
      rw [List.any_eq_true]
      exact ⟨r, List.mem_filter.mpr ⟨hmem, hcand⟩, by simp [heff]⟩
    simp only [enforce, hdeny, if_true]
  · intro rules' hperm
    have hcand_eq : ∀ r : PolicyRule,
        isCandidate { snap with rules := rules' } r sub act obj =
          isCandidate snap r sub act obj := fun r => rfl
    have h1 := any_congr_perm (fun r : PolicyRule => decide (r.effect = Effect.deny))
      ((hperm.filter (fun r => isCandidate snap r sub act obj)).symm)
    have h2 := any_congr_perm (fun r : PolicyRule => decide (r.effect = Effect.allow))
      ((hperm.filter (fun r => isCandidate snap r sub act obj)).symm)
    simp only [enforce, hcand_eq]
    rw [h1, h2]

/-- C1 (witness): with one wildcard allow rule and one later deny rule
both matching the request, `enforce` answers false. -/
theorem enforce_deny_override_witness :
    enforce
      (Snapshot.mk
        [PolicyRule.mk "*".toList "act:read".toList "*".toList Effect.allow,
         PolicyRule.mk "user:u1".toList "act:read".toList "lib:demo".toList Effect.deny]
        [] [] [])
      "user:u1".toList "act:read".toList "lib:demo".toList = false :=
  (enforce_deny_override
      (Snapshot.mk
        [PolicyRule.mk "*".toList "act:read".toList "*".toList Effect.allow,
         PolicyRule.mk "user:u1".toList "act:read".toList "lib:demo".toList Effect.deny]
        [] [] [])
      "user:u1".toList "act:read".toList "lib:demo".toList).1
    (PolicyRule.mk "user:u1".toList "act:read".toList "lib:demo".toList Effect.deny)
    (by decide) (by decide) rfl

/-- C6: loading an unchanged Store twice in succession publishes a
snapshot whose `enforce` answers coincide with those after a single
load, for every request. -/
theorem load_twice_same_enforce (store : List StoredTuple) (st : EnforcerState)
    (sub act obj : List Char) :
    enforce (loadStore store (loadStore store st)).snapshot sub act obj =
      enforce (loadStore store st).snapshot sub act obj := rfl

/-- C8: staff/superuser bypass — when the request user resolves to an
existing, non-retired account with `is_staff` or `is_superuser` set and
the scope resolves to an existing object, `check_custom_conditions`
returns true for every action, service variant and scope type. -/
theorem check_custom_conditions_staff_bypass (env : MatcherEnv)
    (request_user request_action request_scope : List Char) (user : AuthUser) (obj : ScopeObj)
    (hu : env.resolveUser (env.userExternalKey request_user) = some user)
    (ho : env.getObject request_scope = some obj)
    (hs : user.is_staff = true ∨ user.is_superuser = true) :
    check_custom_conditions env request_user request_action request_scope = true := by
  simp only [check_custom_conditions, hu, ho]
  rcases hs with h | h <;> simp [h]

/-- C8 (witness): a staff account passes for an arbitrary action in a
non-studio environment without any role assignment. -/
theorem check_custom_conditions_staff_bypass_witness :
    check_custom_conditions
      (MatcherEnv.mk (fun _ => some (AuthUser.mk true false false))
        (fun _ => some (ScopeObj.mk false)) id id (fun _ => false) "lms".toList)
      "user^staff1".toList "act^delete_library".toList "lib^lib:Org:X".toList = true :=
  check_custom_conditions_staff_bypass
    (MatcherEnv.mk (fun _ => some (AuthUser.mk true false false))
      (fun _ => some (ScopeObj.mk false)) id id (fun _ => false) "lms".toList)
    "user^staff1".toList "act^delete_library".toList "lib^lib:Org:X".toList
    (AuthUser.mk true false false) (ScopeObj.mk false) rfl rfl (Or.inl rfl)

theorem char_toNat_ofNat_valid (n : Nat) (h : n.isValidChar) : (Char.ofNat n).toNat = n := by
  simp only [Char.ofNat, dif_pos h, Char.ofNatAux, Char.toNat]
  rfl

theorem char_isUpper_iff (x : Char) : x.isUpper = true ↔ 65 ≤ x.toNat ∧ x.toNat ≤ 90 := by
  simp only [Char.isUpper, Bool.and_eq_true, decide_eq_true_eq]
  have h65 : ((65 : UInt32) ≤ x.val) ↔ 65 ≤ x.toNat := by
    rw [show ((65 : UInt32) ≤ x.val) ↔ (65 : UInt32).toNat ≤ x.val.toNat from Iff.rfl]
    norm_num [Char.toNat]
  have h90 : (x.val ≤ (90 : UInt32)) ↔ x.toNat ≤ 90 := by
    rw [show (x.val ≤ (90 : UInt32)) ↔ x.val.toNat ≤ (90 : UInt32).toNat from Iff.rfl]
    norm_num [Char.toNat]
  rw [ge_iff_le, h65, h90]

theorem isUpper_toLower_eq_false (c : Char) : (Char.toLower c).isUpper = false := by
  rw [Bool.eq_false_iff]
  intro hu
  rw [char_isUpper_iff] at hu
  rw [Char.toLower] at hu
  by_cases h : c.toNat ≥ 65 ∧ c.toNat ≤ 90
  · rw [if_pos h] at hu
    rw [char_toNat_ofNat_valid (c.toNat + 32) (Or.inl (by omega))] at hu
    omega
  · rw [if_neg h] at hu
    rcases not_and_or.mp h with h1 | h1 <;> omega

theorem mem_of_isPrefixOf {l h : List Char} (hp : l.isPrefixOf h = true) {c : Char}
    (hc : c ∈ l) : c ∈ h := by
  induction l generalizing h with
  | nil => simp at hc
  | cons a as ih =>
    cases h with
    | nil => simp [List.isPrefixOf] at hp
    | cons b bs =>
      simp only [List.isPrefixOf, Bool.and_eq_true, beq_iff_eq] at hp
      rcases List.mem_cons.mp hc with rfl | hcm
      · simp [hp.1]
      · exact List.mem_cons_of_mem b (ih hp.2 hcm)

theorem mem_of_isSubstr {n h : List Char} (hs : isSubstr n h = true) {c : Char}
    (hc : c ∈ n) : c ∈ h := by
  induction h with
  | nil =>
    simp only [isSubstr, List.isEmpty_iff] at hs
    subst hs
    simp at hc
  | cons b bs ih =>
    simp only [isSubstr, Bool.or_eq_true] at hs
    rcases hs with hs | hs
    · exact mem_of_isPrefixOf hs hc
    · exact List.mem_cons_of_mem b (ih hs)

/-- C10: `filter_users` compares the raw search term against lowercased
field values, so a search term containing an uppercase letter matches no
user at all and the result is empty (roles absent); and with neither a
search term nor roles the input list is returned unchanged. -/
theorem filter_users_uppercase_and_identity
    (searchFields : List String) (users : List ApiUser) (s : List Char) (c : Char)
    (hc : c ∈ s) (hup : c.isUpper = true) :
    filter_users searchFields users (some s) [] = [] ∧
    (∀ users2 : List ApiUser, filter_users searchFields users2 none [] = users2 ∧
      filter_users searchFields users2 (some []) [] = users2) := by
  have hsne : s.isEmpty = false := by
    cases s with
    | nil => simp at hc
    | cons a as => rfl
  refine ⟨?_, fun users2 => ⟨rfl, rfl⟩⟩
  simp only [filter_users, Option.getD, hsne, Bool.false_and, Bool.false_eq_true, if_false,
    List.isEmpty_nil, if_true, Bool.and_true]
  rw [List.filter_eq_nil_iff]
  intro u _
  rw [Bool.not_eq_true]
  cases hm : matchesSearch searchFields s u with
  | false => rfl
  | true =>
    exfalso
    rw [matchesSearch, List.any_eq_true] at hm
    obtain ⟨f, _, hsub⟩ := hm
    have hcv := mem_of_isSubstr hsub hc
    rw [lowerChars, List.mem_map] at hcv
    obtain ⟨d, _, hd⟩ := hcv
    rw [← hd] at hup
    rw [isUpper_toLower_eq_false d] at hup
    exact Bool.false_ne_true hup

/-- C10 (witness): the search term "Admin" (capital A) filters out even a
user whose username field is "admin". -/
theorem filter_users_uppercase_and_identity_witness :
    filter_users ["username"] [ApiUser.mk (fun _ => some "admin".toList) []]
      (some "Admin".toList) [] = [] :=
  (filter_users_uppercase_and_identity ["username"]
    [ApiUser.mk (fun _ => some "admin".toList) []] "Admin".toList 'A'
    (by decide) (by decide)).1

theorem perm_insertById (r : CasbinRule) (l : List CasbinRule) :
    (insertById r l).Perm (r :: l) := by
  induction l with
  | nil => exact List.Perm.refl _
  | cons x xs ih =>
    rw [insertById]
    by_cases h : r.id ≤ x.id
    · rw [if_pos h]
    · rw [if_neg h]
      exact (ih.cons x).trans (List.Perm.swap r x xs)

theorem mem_insertById {r x : CasbinRule} {l : List CasbinRule} :
    x ∈ insertById r l ↔ x = r ∨ x ∈ l := by
  rw [(perm_insertById r l).mem_iff, List.mem_cons]

theorem pairwise_insertById (r : CasbinRule) (l : List CasbinRule)
    (h : l.Pairwise fun a b => a.id ≤ b.id) :
    (insertById r l).Pairwise fun a b => a.id ≤ b.id := by
  induction l with
  | nil => simp [insertById]
  | cons x xs ih =>
    rw [List.pairwise_cons] at h
    rw [insertById]
    by_cases hle : r.id ≤ x.id
    · rw [if_pos hle]
      rw [List.pairwise_cons]
      refine ⟨?_, List.pairwise_cons.mpr h⟩
      intro b hb
      rcases List.mem_cons.mp hb with rfl | hbm
      · exact hle
      · exact le_trans hle (h.1 b hbm)
    · rw [if_neg hle]
      rw [List.pairwise_cons]
      refine ⟨?_, ih h.2⟩
      intro b hb
      rcases mem_insertById.mp hb with rfl | hbm
      · omega
      · exact h.1 b hbm

theorem perm_orderById (l : List CasbinRule) : (orderById l).Perm l := by
  induction l with
  | nil => exact List.Perm.refl _
  | cons x xs ih =>
    rw [orderById, List.foldr_cons]
    exact (perm_insertById x (xs.foldr insertById [])).trans (ih.cons x)

theorem pairwise_orderById (l : List CasbinRule) :
    (orderById l).Pairwise fun a b => a.id ≤ b.id := by
  induction l with
  | nil => simp [orderById]
  | cons x xs ih => exact pairwise_insertById x _ ih

theorem colClause_eq (l : List String) (v : String) :
    (l.isEmpty || l.contains v) = decide (l ≠ [] → v ∈ l) := by
  cases l with
  | nil => simp
  | cons a as => simp

theorem foldl_colfilters (f : PolicyFilter)
    (cols : List ((CasbinRule → String) × (PolicyFilter → List String)))
    (rows : List CasbinRule) :
    cols.foldl
        (fun qs col =>
          if 0 < (col.2 f).length then qs.filter (fun r => (col.2 f).contains (col.1 r)) else qs)
        rows =
      rows.filter fun r => cols.all fun col => (col.2 f).isEmpty || (col.2 f).contains (col.1 r) := by
  induction cols generalizing rows with
  | nil => simp
  | cons col cols ih =>
    rw [List.foldl_cons, ih]
    by_cases h : 0 < (col.2 f).length
    · rw [if_pos h]
      rw [List.filter_filter]
      apply List.filter_congr
      intro r _
      have hne : (col.2 f).isEmpty = false := by
        cases hcf : col.2 f with
        | nil => rw [hcf] at h; simp at h
        | cons a as => rfl
      rw [List.all_cons, hne, Bool.false_or]
      exact Bool.and_comm _ _
    · rw [if_neg h]
      apply List.filter_congr
      intro r _
      have hemp : (col.2 f).isEmpty = true := by
        cases hcf : col.2 f with
        | nil => rfl
        | cons a as => rw [hcf] at h; simp at h
      rw [List.all_cons, hemp, Bool.true_or, Bool.true_and]

/-- C4: `filter_query` returns exactly the stored rows that, in every
column carrying a non-empty filter set, take a value of that set (an
empty set imposing no constraint), ordered by insertion sequence
(ascending `id`). -/
theorem filter_query_exact_rows_sorted (rows : List CasbinRule) (f : PolicyFilter) :
    (filter_query rows f).Perm (rows.filter fun r => decide (MatchesFilter f r)) ∧
    (filter_query rows f).Pairwise (fun a b => a.id ≤ b.id) := by
  have hpt : ∀ r : CasbinRule,
      (adapterColumns.all fun col => (col.2 f).isEmpty || (col.2 f).contains (col.1 r)) =
        decide (MatchesFilter f r) := by
    intro r
    simp only [adapterColumns, List.all_cons, List.all_nil, Bool.and_true, MatchesFilter,
      Bool.decide_and, colClause_eq]
  constructor
  · rw [filter_query, foldl_colfilters]
    rw [List.filter_congr fun a _ => hpt a]
    exact perm_orderById _
  · exact pairwise_orderById _

theorem parseLine_load_eq_spec (l : List Char) :
    (match parseLine l with
      | none => none
      | some ps => if keptByLoader ps = true then some ps else none) =
      specWellFormedLine l := by
  simp only [parseLine, specWellFormedLine]
  generalize trimChars l = s
  cases s with
  | nil => simp
  | cons c cs =>
    simp only [List.isEmpty_cons, List.headD_cons, Bool.false_eq_true, false_or, if_false]
    by_cases hc : c = '#'
    · subst hc
      have hpf : "#".toList.isPrefixOf ('#' :: cs) = true := by
        simp [List.isPrefixOf]
      rw [hpf]
      simp
    · have hpf : "#".toList.isPrefixOf (c :: cs) = false := by
        simp [List.isPrefixOf]
        exact fun h => absurd h.symm hc
      rw [hpf]
      simp only [Bool.false_eq_true, if_false, if_neg hc]
      generalize (splitOnChar ',' (c :: cs)).map trimChars = ps
      cases ps with
      | nil => simp
      | cons k rest =>
        cases rest with
        | nil =>
          simp only [List.length_cons, List.length_nil]
          norm_num
        | cons r1 rest1 =>
          simp only [List.length_cons, List.headD_cons]
          have hlen : ¬ (rest1.length + 1 + 1 < 2) := by omega
          rw [if_neg hlen]
          by_cases hk1 : k = "p".toList
          · subst hk1
            simp only [true_or, if_true, keptByLoader, if_pos rfl]
            by_cases h4 : 4 ≤ (r1 :: rest1).length
            · simp [h4]
            · simp [h4, show ¬("p".toList = "g".toList ∨ "p".toList = "g2".toList) by decide]
          · by_cases hk2 : k = "g".toList
            · subst hk2
              simp only [keptByLoader]
              by_cases h2 : 2 ≤ (r1 :: rest1).length
              · simp [h2, show ("g".toList : List Char) ≠ "p".toList by decide]
              · simp [h2, show ("g".toList : List Char) ≠ "p".toList by decide]
            · by_cases hk3 : k = "g2".toList
              · subst hk3
                simp only [keptByLoader]
                by_cases h2 : 2 ≤ (r1 :: rest1).length
                · simp [h2, show ("g2".toList : List Char) ≠ "p".toList by decide,
                    show ("g2".toList : List Char) ≠ "g".toList by decide]
                · simp [h2, show ("g2".toList : List Char) ≠ "p".toList by decide,
                    show ("g2".toList : List Char) ≠ "g".toList by decide]
              · have hor : ¬ (k = "p".toList ∨ k = "g".toList ∨ k = "g2".toList) := by
                  rintro (h | h | h)
                  · exact hk1 h
                  · exact hk2 h
                  · exact hk3 h
                rw [if_neg hor, if_neg (fun h => hk1 h.1),
                  if_neg (fun h => h.1.elim (fun h1 => hk2 h1) (fun h1 => hk3 h1))]

/-- C5: the load pipeline (parse, then per-kind arity check) keeps
exactly the well-formed lines — known kind `p`, `g` or `g2` with the
field count that kind requires — in file order, and any single malformed
line is dropped without disturbing the lines around it: no line aborts
the load. -/
theorem load_policy_pipeline_keeps_wellformed :
    (∀ lines : List (List Char),
      load_policies_to_database (parse_policy_file lines) =
        lines.filterMap specWellFormedLine) ∧
    (∀ pre : List (List Char), ∀ bad : List Char, ∀ post : List (List Char),
      specWellFormedLine bad = none →
      load_policies_to_database (parse_policy_file (pre ++ bad :: post)) =
        load_policies_to_database (parse_policy_file pre) ++
          load_policies_to_database (parse_policy_file post)) := by
  have hmain : ∀ lines : List (List Char),
      load_policies_to_database (parse_policy_file lines) =
        lines.filterMap specWellFormedLine := by
    intro lines
    induction lines with
    | nil => rfl
    | cons l ls ih =>
      rw [parse_policy_file, load_policies_to_database] at ih ⊢
      rw [List.filterMap_cons, List.filterMap_cons]
      rw [← parseLine_load_eq_spec l]
      cases hp : parseLine l with
      | none => exact ih
      | some ps =>
        rw [List.filter_cons]
        cases hk : keptByLoader ps with
        | true => simp [hk, ih]
        | false => simp [hk, ih]
  refine ⟨hmain, fun pre bad post hbad => ?_⟩
  rw [hmain, hmain, hmain, List.filterMap_append, List.filterMap_cons, hbad]

/-- C5 (witness): a line of unknown kind `x` between a valid `p` line
and a valid `g` line is dropped while both neighbours are loaded. -/
theorem load_policy_pipeline_keeps_wellformed_witness :
    load_policies_to_database (parse_policy_file
        (["p, role:a, act:read, lib:*, allow".toList] ++
          "x, strange, record".toList :: ["g, user:b, role:a".toList])) =
      load_policies_to_database (parse_policy_file ["p, role:a, act:read, lib:*, allow".toList]) ++
        load_policies_to_database (parse_policy_file ["g, user:b, role:a".toList]) :=
  load_policy_pipeline_keeps_wellformed.2
    ["p, role:a, act:read, lib:*, allow".toList] "x, strange, record".toList
    ["g, user:b, role:a".toList] (by decide)
